import Mathlib

/-!
Verification of the hybrid semantic search core of the donor-finder backend.

The Python services `app/services/embedding_service.py` and
`app/services/database_service.py` are shallowly embedded below.
Python floats are modelled as real numbers, Python `Optional[T]` as `Option`,
the SQLAlchemy organization table as a `List Organization`, and the
sentence-transformer model (an external library, assumed loaded) as an
explicit function parameter `enc : String → Option (List ℝ)` where `none`
models the model call raising an exception.
-/

/-- Python `str.strip()` on a list of characters: drop whitespace from both ends. -/
def pyStripL (l : List Char) : List Char :=
  ((l.dropWhile Char.isWhitespace).reverse.dropWhile Char.isWhitespace).reverse

/-- Python `str.strip()`. -/
def pyStrip (s : String) : String := String.mk (pyStripL s.data)

/-- Python `str.lower()` (ASCII case folding suffices for the vocabulary used). -/
def pyLower (s : String) : String := String.mk (s.data.map Char.toLower)

/-- Python `str.upper()`. -/
def pyUpper (s : String) : String := String.mk (s.data.map Char.toUpper)

/-- Python truthiness of an `Optional[str]`: `None` and `""` are falsy. -/
def truthyStr : Option String → Bool
  | none => false
  | some s => !(s = "")

/-- Python truthiness of an `Optional[int]`: `None` and `0` are falsy. -/
def truthyInt : Option ℤ → Bool
  | none => false
  | some n => !(n = 0)

/-- `np.dot` on two equal-length 1-D arrays (sum of pointwise products). -/
def dotList (v w : List ℝ) : ℝ := (List.zipWith (fun a b => a * b) v w).sum

/-- `np.linalg.norm`: the Euclidean norm, `sqrt` of the dot product with itself. -/
noncomputable def vecNorm (v : List ℝ) : ℝ := Real.sqrt (dotList v v)

/-- `np.isclose(a, b)` with numpy default tolerances `rtol=1e-5`, `atol=1e-8`. -/
noncomputable def np_isclose (a b : ℝ) : Bool := decide (|a - b| ≤ 1e-8 + 1e-5 * |b|)

/-- `EmbeddingService.embedding_dimension` for `all-MiniLM-L6-v2`. -/
def embedding_dimension : ℕ := 384

/-- The all-zero vector of the configured dimension, the sentinel returned by
`EmbeddingService.generate_embedding` for empty text or on model failure. -/
noncomputable def zeroVec : List ℝ := List.replicate embedding_dimension 0

/-- `EmbeddingService.generate_embedding` (embedding_service.py, lines 32-57).
`enc` is the loaded sentence-transformer model: `enc t = none` models
`model.encode(t)` raising.  Empty / whitespace-only text short-circuits to the
zero vector; an encode exception is caught and also yields the zero vector; a
successful encode result is returned as-is (a dimension mismatch is only
logged, never repaired). -/
noncomputable def generate_embedding (enc : String → Option (List ℝ))
    (text : String) : List ℝ :=
  if pyStrip text = "" then zeroVec
  else
    match enc (pyStrip text) with
    | some emb => emb
    | none => zeroVec

/-- `EmbeddingService.generate_embeddings_batch` (embedding_service.py, lines
59-96).  `encB` is the batched model call, `none` modelling an exception.
Empty/whitespace items are filtered out before encoding; the batched result is
written back at the recorded original indices into a list of zero vectors.  If
the model call raises — or returns more vectors than there were valid texts, in
which case the write-back loop raises an `IndexError` inside the same `try` —
the whole batch degrades to zero vectors. -/
noncomputable def generate_embeddings_batch (encB : List String → Option (List (List ℝ)))
    (texts : List String) : List (List ℝ) :=
  if texts = [] then []
  else
    let valid := texts.enum.filter (fun p => !(pyStrip p.2 = ""))
    let valid_texts := valid.map (fun p => pyStrip p.2)
    let valid_indices := valid.map (fun p => p.1)
    if valid_texts = [] then List.replicate texts.length zeroVec
    else
      match encB valid_texts with
      | none => List.replicate texts.length zeroVec
      | some embs =>
        if valid_indices.length < embs.length then List.replicate texts.length zeroVec
        else
          (valid_indices.zip embs).foldl (fun r p => r.set p.1 p.2)
            (List.replicate texts.length zeroVec)

/-- `EmbeddingService.compute_similarity` (embedding_service.py, lines 98-121):
cosine similarity with a numpy-`isclose` zero-norm guard.  `np.dot` on vectors
of different lengths raises a `ValueError`, which the function's `except`
converts to `0.0`. -/
noncomputable def compute_similarity (embedding1 embedding2 : List ℝ) : ℝ :=
  if embedding1.length ≠ embedding2.length then 0
  else
    let dot_product := dotList embedding1 embedding2
    let norm1 := vecNorm embedding1
    let norm2 := vecNorm embedding2
    if np_isclose norm1 0 || np_isclose norm2 0 then 0
    else dot_product / (norm1 * norm2)

/-- A row of the `organizations` table (app/models/organization.py), restricted
to the columns the search/embedding services read or write.  `ein` is the
non-nullable unique identifier; all other columns are nullable. -/
structure Organization where
  ein : ℤ
  name : Option String
  sub_name : Option String
  city : Option String
  state : Option String
  subseccd : Option ℤ
  ntee_code : Option String
  searchable_text : Option String
  embedding : Option (List ℝ)

/-- The field dict handed to `NTEEService.build_searchable_text` by
`update_organization_embedding` / `batch_update_embeddings`. -/
structure OrgFields where
  name : Option String
  sub_name : Option String
  ntee_code : Option String
  subseccd : Option ℤ
  city : Option String
  state : Option String

/-- The dict built by `DatabaseService` callers from an organization row. -/
def orgFieldsOf (o : Organization) : OrgFields :=
  ⟨o.name, o.sub_name, o.ntee_code, o.subseccd, o.city, o.state⟩

/-- The components dict returned by `NTEEService.extract_query_components`:
recognized geographic tokens, cause-area codes, and an organization-type hint. -/
structure QueryComponents where
  geographic : List String
  cause_areas : List String
  org_type_hint : Bool

/-- The `{"updated": _, "errors": _}` stats dict of `batch_update_embeddings`. -/
structure UpdateStats where
  updated : ℕ
  errors : ℕ
deriving DecidableEq

/-- Modelled from the spec: `NTEEService.build_searchable_text` is not in the
source tree (only its callers are).  Spec section 4.1: a pure, deterministic,
never-raising render of the structured fields into one text blob; coded fields
are expanded to human-readable labels; null/empty fields are omitted without
stray punctuation; all fields empty yields the empty string.  The label tables
are modelled as small fixed association lists. -/
def build_searchable_text (f : OrgFields) : String :=
  let nteeLabel : Option String :=
    f.ntee_code.bind fun c =>
      [("B", "education"), ("E", "health"), ("M", "disaster relief"),
       ("O", "youth development"), ("P", "human services")].lookup (String.mk (c.data.take 1))
  let subsecLabel : Option String :=
    f.subseccd.bind fun n =>
      [((3 : ℤ), "charitable organization"), ((4 : ℤ), "social welfare organization"),
       ((6 : ℤ), "business league")].lookup n
  let parts := [f.name, f.sub_name, nteeLabel, subsecLabel, f.city, f.state]
  String.intercalate " " ((parts.filterMap id).filter (fun s => !(s = "")))

/-- Projection of an organization row onto everything except the two derived
columns `searchable_text` and `embedding` — the identity fields the embedding
refresh operations must not touch. -/
def idFields (o : Organization) :
    ℤ × Option String × Option String × Option String × Option String × Option ℤ × Option String :=
  (o.ein, o.name, o.sub_name, o.city, o.state, o.subseccd, o.ntee_code)

/-- One insertion into a Python dict modelled as an insertion-ordered
association list: an existing key is updated in place, a new key is appended. -/
def dictInsert {V : Type} : List (ℤ × V) → ℤ → V → List (ℤ × V)
  | [], k, v => [(k, v)]
  | (k', v') :: rest, k, v =>
    if k' = k then (k, v) :: rest else (k', v') :: dictInsert rest k v

/-- Python dict key lookup (`k in d` / `d[k]`) on the association-list model. -/
def dictFind? {V : Type} : List (ℤ × V) → ℤ → Option V
  | [], _ => none
  | (k', v') :: rest, k => if k' = k then some v' else dictFind? rest k

/-- `DatabaseService.search_organizations` (database_service.py, lines 90-110):
keyword search.  `name ILIKE '%query%'` is modelled as case-insensitive
substring containment (`NULL` never matches); each filter is applied only when
its argument is Python-truthy; the filtered rows are truncated to `limit` in
table order. -/
def search_organizations (query : Option String) (state : Option String)
    (subseccd : Option ℤ) (limit : ℕ) (db : List Organization) : List Organization :=
  ((db.filter (fun o =>
      (if truthyStr query then
        match o.name, query with
        | some nm, some q => decide ((pyLower q).data <:+: (pyLower nm).data)
        | _, _ => false
      else true)
      && (if truthyStr state then decide (o.state = state) else true)
      && (if truthyInt subseccd then decide (o.subseccd = subseccd) else true))).take limit)

/-- Comparator of Python's `results.sort(key=lambda x: x[1], reverse=True)` on
`(organization, score)` pairs: stable descending sort by score. -/
noncomputable def scoreDescPair (a b : Organization × ℝ) : Bool := decide (b.2 ≤ a.2)

/-- The candidate filter of `semantic_search_organizations`: non-null
`embedding` column, then the state / subsection / NTEE filters, each applied
only when its argument is Python-truthy (the state comparison uppercases the
argument). -/
def semantic_filter (state : Option String) (subseccd : Option ℤ)
    (ntee_codes : Option (List String)) (o : Organization) : Bool :=
  o.embedding.isSome
  && (if truthyStr state then
        match state with
        | some s => decide (o.state = some (pyUpper s))
        | none => false
      else true)
  && (if truthyInt subseccd then decide (o.subseccd = subseccd) else true)
  && (if (match ntee_codes with | some l => !(l = []) | none => false) then
        match o.ntee_code, ntee_codes with
        | some c, some l => decide (c ∈ l)
        | _, _ => false
      else true)

/-- The per-candidate scoring step of `semantic_search_organizations`: a
candidate with a present embedding is scored against the query vector and kept
when the similarity reaches the threshold; a candidate without one is skipped. -/
noncomputable def semantic_score (query_embedding : List ℝ) (similarity_threshold : ℝ)
    (o : Organization) : Option (Organization × ℝ) :=
  match o.embedding with
  | some emb =>
    let similarity := compute_similarity query_embedding emb
    if similarity_threshold ≤ similarity then some (o, similarity) else none
  | none => none

/-- `DatabaseService.semantic_search_organizations` (database_service.py, lines
119-164): embed the query, pull at most 1000 candidate rows passing
`semantic_filter`, score them with `semantic_score`, sort descending by score,
truncate to `limit`. -/
noncomputable def semantic_search_organizations (enc : String → Option (List ℝ))
    (query : String) (state : Option String) (subseccd : Option ℤ)
    (ntee_codes : Option (List String)) (limit : ℕ) (similarity_threshold : ℝ)
    (db : List Organization) : List (Organization × ℝ) :=
  let query_embedding := generate_embedding enc query
  let candidates := (db.filter (semantic_filter state subseccd ntee_codes)).take 1000
  if candidates.isEmpty then []
  else
    let results := candidates.filterMap (semantic_score query_embedding similarity_threshold)
    (results.mergeSort scoreDescPair).take limit

/-- One iteration of the semantic loop of `hybrid_search_organizations`: a
semantically ranked candidate enters the dict keyed by `ein` with its score
weighted by 0.8 and tag `"semantic"`. -/
noncomputable def semantic_entry_step (m : List (ℤ × (Organization × ℝ × String)))
    (p : Organization × ℝ) : List (ℤ × (Organization × ℝ × String)) :=
  dictInsert m p.1.ein (p.1, p.2 * 0.8, "semantic")

/-- One iteration of the keyword loop of `hybrid_search_organizations`: boost
an existing entry for the same `ein` (keeping the already-stored organization
instance) or append a keyword-only entry. -/
noncomputable def keyword_entry_step (m : List (ℤ × (Organization × ℝ × String)))
    (o : Organization) : List (ℤ × (Organization × ℝ × String)) :=
  match dictFind? m o.ein with
  | some (existing_org, existing_score, _) =>
    dictInsert m o.ein (existing_org, existing_score + 0.3, "hybrid")
  | none => dictInsert m o.ein (o, 0.5, "keyword")

/-- The insertion-ordered dict `combined_results` built by
`DatabaseService.hybrid_search_organizations` (database_service.py, lines
204-226): the semantic loop followed by the keyword loop. -/
noncomputable def combine_results (semantic_results : List (Organization × ℝ))
    (keyword_results : List Organization) : List (ℤ × (Organization × ℝ × String)) :=
  let afterSemantic := semantic_results.foldl semantic_entry_step []
  keyword_results.foldl keyword_entry_step afterSemantic

/-- Comparator of the final `final_results.sort(key=lambda x: x[1],
reverse=True)` on `(organization, score, tag)` triples. -/
noncomputable def scoreDescTriple (a b : Organization × ℝ × String) : Bool :=
  decide (b.2.1 ≤ a.2.1)

/-- The fusion tail of `hybrid_search_organizations` (database_service.py,
lines 204-233): dict values in insertion order, sorted stably descending by
fused score, truncated to `limit`. -/
noncomputable def hybrid_fuse (semantic_results : List (Organization × ℝ))
    (keyword_results : List Organization) (limit : ℕ) : List (Organization × ℝ × String) :=
  (((combine_results semantic_results keyword_results).map (fun p => p.2)).mergeSort
    scoreDescTriple).take limit

/-- `DatabaseService.hybrid_search_organizations` (database_service.py, lines
166-233).  `extract` is `NTEEService.extract_query_components`, a component
absent from the source tree and therefore passed as an explicit pure-function
parameter (spec section 4.2: total, never raises).  The state filter handed to
both sub-searches is Python `state or (components["geographic"][0] if
components["geographic"] else None)`, written out twice as in the source. -/
noncomputable def hybrid_search_organizations (enc : String → Option (List ℝ))
    (extract : String → QueryComponents) (query : String) (state : Option String)
    (subseccd : Option ℤ) (limit : ℕ) (db : List Organization) :
    List (Organization × ℝ × String) :=
  let query_components := extract query
  let semantic_results := semantic_search_organizations enc query
    (if truthyStr state then state else query_components.geographic.head?)
    subseccd none limit 0.1 db
  let keyword_results := search_organizations (some query)
    (if truthyStr state then state else query_components.geographic.head?)
    subseccd limit db
  hybrid_fuse semantic_results keyword_results limit

/-- `DatabaseService.get_organizations_without_embeddings` (database_service.py,
lines 267-276). -/
def get_organizations_without_embeddings (db : List Organization) (limit : ℕ) :
    List Organization :=
  (db.filter (fun o => o.embedding.isNone)).take limit

/-- `DatabaseService.update_organization_embedding` (database_service.py, lines
235-265): find the first row with the given `ein`; absent ⇒ `false`; otherwise
rebuild its searchable text and embedding, write exactly those two columns
back, and return `true`.  The row mutation is modelled positionally via the
row's index so object identity is preserved. -/
noncomputable def update_organization_embedding (enc : String → Option (List ℝ))
    (db : List Organization) (ein : ℤ) : List Organization × Bool :=
  match db.findIdx? (fun o => o.ein = ein) with
  | none => (db, false)
  | some i =>
    match db[i]? with
    | none => (db, false)
    | some org =>
      let searchable_text := build_searchable_text (orgFieldsOf org)
      let embedding := generate_embedding enc searchable_text
      (db.set i { org with searchable_text := some searchable_text,
                           embedding := some embedding }, true)

/-- `DatabaseService.batch_update_embeddings` (database_service.py, lines
278-324): select (positionally) up to `batch_size` rows lacking an embedding,
render their searchable texts, embed them in one batch call, and write text
and embedding back per row inside a per-item `try` whose body — two attribute
assignments and a counter increment — cannot raise, so every selected row
counts as updated and the error counter stays 0. -/
noncomputable def batch_update_embeddings (encB : List String → Option (List (List ℝ)))
    (db : List Organization) (batch_size : ℕ) : List Organization × UpdateStats :=
  let sel := (db.enum.filter (fun p => p.2.embedding.isNone)).take batch_size
  if sel.isEmpty then (db, ⟨0, 0⟩)
  else
    let org_texts := sel.map (fun p => build_searchable_text (orgFieldsOf p.2))
    let embeddings := generate_embeddings_batch encB org_texts
    let triples := sel.zip (org_texts.zip embeddings)
    let newdb := triples.foldl
      (fun d t => d.set t.1.1 { t.1.2 with searchable_text := some t.2.1,
                                           embedding := some t.2.2 }) db
    (newdb, ⟨triples.length, 0⟩)

/-- Test fixture: an organization row with state CA, a name, and no embedding. -/
def orgCA : Organization := ⟨1, some "x", none, none, some "CA", none, none, none, none⟩

/-- Test fixture: a query-component extractor recognizing California. -/
def extractCA : String → QueryComponents := fun _ => ⟨["CA"], [], false⟩

/-- Test fixture: a semantically ranked organization. -/
def orgAlpha : Organization := ⟨1, some "Alpha Fund", none, none, some "NY", none, none, none, none⟩

/-- Test fixture: a distinct loaded instance of the same logical organization as
`orgAlpha` (same `ein`, different field values), as returned by keyword search. -/
def orgAlpha2 : Organization := ⟨1, some "ALPHA FUND", none, none, some "NY", none, none, some "t", none⟩

/-- Test fixture: an organization with a different identifier. -/
def orgBeta : Organization := ⟨2, some "Beta Trust", none, none, some "CA", none, none, none, none⟩

/-- Test fixture: batched model that embeds only the exact batch `["a"]` and
raises on any batch containing the malformed text `"b"`. -/
def encBadBatch : List String → Option (List (List ℝ)) :=
  fun ts => if ts = ["a"] then some [[1]] else none

/-- Test fixture: an embedding-less organization with a name. -/
def orgU1 : Organization := ⟨10, some "Aid One", none, none, some "NY", none, none, none, none⟩

/-- Test fixture: an embedding-less organization all of whose source fields are
null — its searchable text is unparseable/empty. -/
def orgU2 : Organization := ⟨11, none, none, none, none, none, none, none, none⟩

/-- Test fixture: a third embedding-less organization. -/
def orgU3 : Organization := ⟨12, some "Aid Three", none, none, some "CA", none, none, none, none⟩

/-- Test fixture: batched model returning one vector per input text. -/
def encPerText : List String → Option (List (List ℝ)) :=
  fun ts => some (ts.map (fun _ => [1]))

/-- Test fixture: an organization row carrying a (1-dimensional) embedding. -/
def orgEmb : Organization := ⟨5, some "Emb Org", none, none, none, none, none, none, some [1]⟩

/-- Test fixture: a New York organization whose name matches the query `"x"`. -/
def orgNY : Organization := ⟨3, some "x", none, none, some "NY", none, none, none, none⟩

/-- Dot products are symmetric. -/
theorem dotList_comm (v w : List ℝ) : dotList v w = dotList w v := by
  induction v generalizing w with
  | nil => cases w <;> simp [dotList]
  | cons x xs ih =>
    cases w with
    | nil => simp [dotList]
    | cons y ys =>
      simp only [dotList, List.zipWith_cons_cons, List.sum_cons] at *
      rw [mul_comm x y, ih]
/-- Claim C10: for every pair of vectors `a` and `b`, `compute_similarity a b =
compute_similarity b a` — the cosine-similarity operation of
`EmbeddingService.compute_similarity` is symmetric, including its
length-mismatch and near-zero-norm guard branches. -/
theorem claim_C10_similarity_symm (a b : List ℝ) :
    compute_similarity a b = compute_similarity b a := by
  simp only [compute_similarity]
  by_cases h : a.length = b.length
  · rw [if_neg (show ¬(a.length ≠ b.length) by simp [h]),
      if_neg (show ¬(b.length ≠ a.length) by simp [h])]
    rw [Bool.or_comm (np_isclose (vecNorm b) 0) (np_isclose (vecNorm a) 0),
      dotList_comm b a, mul_comm (vecNorm b) (vecNorm a)]
  · rw [if_pos (show a.length ≠ b.length from h), if_pos (show b.length ≠ a.length from Ne.symm h)]

/-- The `np.isclose(norm, 0.0)` guard holds whenever the norm is at most the
absolute tolerance `1e-8`. -/
theorem np_isclose_zero_of_le (x : ℝ) (hx : 0 ≤ x) (h : x ≤ 1e-8) :
    np_isclose x 0 = true := by
  simp only [np_isclose, decide_eq_true_eq, sub_zero, abs_zero, mul_zero, add_zero,
    abs_of_nonneg hx]
  exact h

/-- Claim C4: for every model, embedding the empty string and a whitespace-only
string deterministically yields the all-zero vector of the configured
dimension, and `compute_similarity` applied to a vector of (near-)zero norm
(on either side) and any other vector returns exactly 0. -/
theorem claim_C4_zero_sentinels (enc : String → Option (List ℝ)) (v w : List ℝ) :
    generate_embedding enc "" = zeroVec ∧
    generate_embedding enc "   " = zeroVec ∧
    ((vecNorm v ≤ 1e-8 ∨ vecNorm w ≤ 1e-8) → compute_similarity v w = 0) := by
  refine ⟨?_, ?_, ?_⟩
  · simp [generate_embedding, show pyStrip "" = "" from by decide]
  · simp [generate_embedding, show pyStrip "   " = "" from by decide]
  · intro h
    simp only [compute_similarity]
    split_ifs with h1 h2
    · rfl
    · rfl
    · exfalso
      apply h2
      rcases h with h | h
      · rw [np_isclose_zero_of_le (vecNorm v) (Real.sqrt_nonneg _) h, Bool.true_or]
      · rw [np_isclose_zero_of_le (vecNorm w) (Real.sqrt_nonneg _) h, Bool.or_true]

/-- Witness for C4 at a concrete model, the zero vector `[0, 0]` and the
vector `[1, 2, 3]`. -/
theorem claim_C4_zero_sentinels_w :
    generate_embedding (fun _ => none) "" = zeroVec ∧
    generate_embedding (fun _ => none) "   " = zeroVec ∧
    compute_similarity [0, 0] [1, 2, 3] = 0 :=
  ⟨(claim_C4_zero_sentinels (fun _ => none) [0, 0] [1, 2, 3]).1,
   (claim_C4_zero_sentinels (fun _ => none) [0, 0] [1, 2, 3]).2.1,
   (claim_C4_zero_sentinels (fun _ => none) [0, 0] [1, 2, 3]).2.2
     (Or.inl (by norm_num [vecNorm, dotList, Real.sqrt_zero]))⟩
/-- Counterexample to claim C3: a model whose output for the non-empty text
`"a"` is the 1-dimensional vector `[1]` makes `generate_embedding` return that
vector unchanged — its length is not the configured dimension 384 (the source
only logs a warning on a dimension mismatch and returns the vector anyway). -/
theorem claim_C3_cex :
    (generate_embedding (fun _ => some [1]) "a").length ≠ embedding_dimension := by
  have h : pyStrip "a" = "a" := by decide
  simp [generate_embedding, h, embedding_dimension]

/-- Claim C3 (amended): whenever every vector the model returns has the
configured dimension, `generate_embedding` returns a vector of exactly the
configured dimension for every input string; its two sentinel branches
(empty/whitespace input and model failure) always do. -/
theorem claim_C3_dimension (enc : String → Option (List ℝ))
    (henc : ∀ t v, enc t = some v → v.length = embedding_dimension) (text : String) :
    (generate_embedding enc text).length = embedding_dimension := by
  by_cases h0 : pyStrip text = ""
  · simp [generate_embedding, h0, zeroVec]
  · cases h : enc (pyStrip text) with
    | none => simp [generate_embedding, h0, h, zeroVec]
    | some emb =>
      simp only [generate_embedding, if_neg h0, h]
      exact henc _ _ h
/-- Witness for the amended C3 at a dimension-respecting concrete model. -/
theorem claim_C3_dimension_w :
    (generate_embedding (fun _ => some (List.replicate embedding_dimension (0:ℝ)))
      "donors").length = embedding_dimension :=
  claim_C3_dimension _ (fun t v h => by cases h; simp) "donors"
/-- Folding position/value writes preserves the list length. -/
theorem foldl_set_length {α : Type} (l : List (ℕ × α)) (r : List α) :
    (l.foldl (fun r p => r.set p.1 p.2) r).length = r.length := by
  induction l generalizing r with
  | nil => rfl
  | cons a l ih => rw [List.foldl_cons, ih, List.length_set]

/-- Positions written by none of the folded writes keep their old entry. -/
theorem foldl_set_getElem?_of_ne {α : Type} (l : List (ℕ × α)) (r : List α) (i : ℕ)
    (h : ∀ p ∈ l, p.1 ≠ i) :
    (l.foldl (fun r p => r.set p.1 p.2) r)[i]? = r[i]? := by
  induction l generalizing r with
  | nil => rfl
  | cons a l ih =>
    rw [List.foldl_cons, ih _ (fun p hp => h p (List.mem_cons_of_mem a hp)),
      List.getElem?_set_ne (h a (List.mem_cons_self a l))]

/-- With pairwise-distinct target positions, each folded write lands. -/
theorem foldl_set_getElem?_mem {α : Type} (l : List (ℕ × α)) (r : List α) (i : ℕ) (e : α)
    (hn : (l.map Prod.fst).Nodup) (hm : (i, e) ∈ l) (hi : i < r.length) :
    (l.foldl (fun r p => r.set p.1 p.2) r)[i]? = some e := by
  induction l generalizing r with
  | nil => cases hm
  | cons a l ih =>
    rw [List.foldl_cons]
    have hn' : a.1 ∉ l.map Prod.fst ∧ (l.map Prod.fst).Nodup := by
      rw [List.map_cons, List.nodup_cons] at hn
      exact hn
    rcases List.mem_cons.mp hm with heq | hm'
    · subst heq
      rw [foldl_set_getElem?_of_ne _ _ _ ?notin]
      · exact List.getElem?_set_self hi
      case notin =>
        intro p hp hpi
        apply hn'.1
        show i ∈ l.map Prod.fst
        rw [← hpi]
        exact List.mem_map_of_mem Prod.fst hp
    · have hia : a.1 ≠ i := by
        intro hEq
        apply hn'.1
        rw [hEq]
        exact List.mem_map_of_mem Prod.fst hm'
      exact ih (r.set a.1 a.2) hn'.2 hm' (by rw [List.length_set]; exact hi)
/-- The first components of a zip form a sublist of the left input. -/
theorem zip_map_fst_sublist {α β : Type} (l₁ : List α) (l₂ : List β) :
    ((l₁.zip l₂).map Prod.fst).Sublist l₁ := by
  induction l₁ generalizing l₂ with
  | nil => simp
  | cons a l ih =>
    cases l₂ with
    | nil => simp
    | cons b l₂ => simpa using (ih l₂).cons₂ a

/-- `generate_embeddings_batch` returns exactly one vector per input text. -/
theorem generate_embeddings_batch_length (encB : List String → Option (List (List ℝ)))
    (texts : List String) :
    (generate_embeddings_batch encB texts).length = texts.length := by
  by_cases h0 : texts = []
  · subst h0; rfl
  · simp only [generate_embeddings_batch, if_neg h0]
    split
    · simp
    · split
      · simp
      · split
        · simp
        · rw [foldl_set_length, List.length_replicate]
/-- Counterexample to claim C5: the model embeds the batch `["a"]` but raises
on any batch containing the malformed text `"b"`; batching `"a"` together with
`"b"` makes the well-formed item `"a"` lose its embedding `[1]` — the whole
batch degrades to zero vectors, so a single malformed item does fail the other
items of the batch. -/
theorem claim_C5_cex :
    generate_embeddings_batch encBadBatch ["a"] = [[1]] ∧
    generate_embeddings_batch encBadBatch ["a", "b"] = [zeroVec, zeroVec] ∧
    ([1] : List ℝ) ≠ zeroVec := by
  refine ⟨rfl, rfl, ?_⟩
  intro h
  have h2 := congrArg List.length h
  rw [zeroVec, List.length_replicate, embedding_dimension] at h2
  norm_num at h2

/-- Claim C5 (amended): the batch embedding operation always returns exactly
one vector per input text; an empty or whitespace-only item independently maps
to the zero vector in every branch; a failing batched model call degrades
every item of the batch to the zero vector (well-formed items do not get their
embeddings); and when the model call succeeds, each valid item receives the
model's vector for its position, at its original index. -/
theorem claim_C5_batch (encB : List String → Option (List (List ℝ))) (texts : List String) :
    (generate_embeddings_batch encB texts).length = texts.length ∧
    (∀ (i : ℕ) (t : String), texts[i]? = some t → pyStrip t = "" →
      (generate_embeddings_batch encB texts)[i]? = some zeroVec) ∧
    ((∀ l, encB l = none) →
      generate_embeddings_batch encB texts = List.replicate texts.length zeroVec) ∧
    (∀ embs : List (List ℝ),
      encB ((texts.enum.filter (fun p => !(pyStrip p.2 = ""))).map (fun p => pyStrip p.2)) =
        some embs →
      embs.length ≤ ((texts.enum.filter (fun p => !(pyStrip p.2 = ""))).map (fun p => p.1)).length →
      ∀ (j i : ℕ) (t : String) (e : List ℝ), (texts.enum.filter (fun p => !(pyStrip p.2 = "")))[j]? = some (i, t) →
        embs[j]? = some e →
        (generate_embeddings_batch encB texts)[i]? = some e) := by
  refine ⟨generate_embeddings_batch_length encB texts, ?_, ?_, ?_⟩
  · -- zero rule per empty item
    intro i t ht hstrip
    by_cases h0 : texts = []
    · subst h0; simp at ht
    · have hi : i < texts.length := (List.getElem?_eq_some.mp ht).1
      simp only [generate_embeddings_batch, if_neg h0]
      split
      · rw [List.getElem?_replicate, if_pos hi]
      · split
        · rw [List.getElem?_replicate, if_pos hi]
        · split
          · rw [List.getElem?_replicate, if_pos hi]
          · rw [foldl_set_getElem?_of_ne, List.getElem?_replicate, if_pos hi]
            intro p hp hpi
            have hfst := (zip_map_fst_sublist _ _).subset (List.mem_map_of_mem Prod.fst hp)
            obtain ⟨q, hq, hq1⟩ := List.mem_map.mp hfst
            have hqe := List.mem_filter.mp hq
            have hqget : texts[q.1]? = some q.2 := List.mem_enum_iff_getElem?.mp hqe.1
            rw [hq1, hpi] at hqget
            rw [ht] at hqget
            have hq2 : q.2 = t := by
              injection hqget with h
              exact h.symm
            rw [hq2] at hqe
            simp [hstrip] at hqe
  · -- whole-batch model failure
    intro hfail
    by_cases h0 : texts = []
    · subst h0; rfl
    · simp only [generate_embeddings_batch, if_neg h0, hfail]
      split <;> rfl
  · -- successful model call: in-order write-back at original indices
    intro embs hE hLen j i t e hj he
    have h0 : texts ≠ [] := by
      intro h; subst h; simp at hj
    have hmemq : (i, t) ∈ texts.enum.filter (fun p => !(pyStrip p.2 = "")) :=
      List.getElem?_mem hj
    have hit : texts[i]? = some t :=
      List.mem_enum_iff_getElem?.mp (List.mem_filter.mp hmemq).1
    have hi : i < texts.length := (List.getElem?_eq_some.mp hit).1
    have hvne : (texts.enum.filter (fun p => !(pyStrip p.2 = ""))).map (fun p => pyStrip p.2) ≠ [] := by
      intro h
      have := congrArg List.length h
      simp only [List.length_map, List.length_nil] at this
      rw [List.getElem?_eq_none (by rw [this]; exact Nat.zero_le j)] at hj
      cases hj
    simp only [generate_embeddings_batch, if_neg h0, if_neg hvne, hE,
      if_neg (not_lt.mpr hLen)]
    apply foldl_set_getElem?_mem
    · have hnodup : (List.map (fun p : ℕ × String => p.1) texts.enum).Nodup := by
        have h4 : List.map (fun p : ℕ × String => p.1) texts.enum = List.range texts.length :=
          List.enum_map_fst texts
        rw [h4]
        exact List.nodup_range _
      exact List.Nodup.sublist
        ((zip_map_fst_sublist _ _).trans
          (List.Sublist.map (fun p : ℕ × String => p.1) (List.filter_sublist _)))
        hnodup
    · have hz : (((texts.enum.filter (fun p => !(pyStrip p.2 = ""))).map (fun p => p.1)).zip embs)[j]? = some (i, e) := by
        rw [List.getElem?_zip_eq_some]
        constructor
        · rw [List.getElem?_map, hj]; rfl
        · exact he
      exact List.getElem?_mem hz
    · rw [List.length_replicate]; exact hi
/-- Witness for the amended C5: a batch with an empty first item keeps the zero
vector at index 0 while the valid item at index 1 receives the model vector,
and an always-failing model zeroes a whole batch. -/
theorem claim_C5_batch_w :
    (generate_embeddings_batch (fun _ => some [[5]]) ["", "x"])[0]? = some zeroVec ∧
    generate_embeddings_batch (fun _ => none) ["q"] = List.replicate 1 zeroVec ∧
    (generate_embeddings_batch (fun _ => some [[5]]) ["", "x"])[1]? = some [5] :=
  ⟨(claim_C5_batch (fun _ => some [[5]]) ["", "x"]).2.1 0 "" rfl (by decide),
   (claim_C5_batch (fun _ => none) ["q"]).2.2.1 (fun _ => rfl),
   (claim_C5_batch (fun _ => some [[5]]) ["", "x"]).2.2.2 [[5]] rfl (by decide)
     0 1 "x" [5] (by decide) rfl⟩
/-- The descending score comparator on scored pairs is transitive. -/
theorem scoreDescPair_trans (a b c : Organization × ℝ) (hab : scoreDescPair a b = true)
    (hbc : scoreDescPair b c = true) : scoreDescPair a c = true := by
  simp only [scoreDescPair, decide_eq_true_eq] at *
  exact le_trans hbc hab

/-- The descending score comparator on scored pairs is total. -/
theorem scoreDescPair_total (a b : Organization × ℝ) :
    (scoreDescPair a b || scoreDescPair b a) = true := by
  simp only [scoreDescPair, Bool.or_eq_true, decide_eq_true_eq]
  exact le_total b.2 a.2

/-- Whatever `semantic_score` keeps scores at least the threshold and has a
non-null embedding. -/
theorem semantic_score_spec (qe : List ℝ) (thr : ℝ) (o : Organization)
    (p : Organization × ℝ) (h : semantic_score qe thr o = some p) :
    thr ≤ p.2 ∧ p.1.embedding ≠ none ∧ p.1 = o := by
  cases hemb : o.embedding with
  | none => rw [semantic_score, hemb] at h; cases h
  | some emb =>
    rw [semantic_score, hemb] at h
    by_cases hth : thr ≤ compute_similarity qe emb
    · simp only [if_pos hth] at h
      cases h
      exact ⟨hth, by rw [hemb]; exact Option.some_ne_none emb, rfl⟩
    · simp only [if_neg hth] at h
      cases h

/-- Claim C2: for every query, filter set, threshold and limit, semantic search
returns a list sorted non-increasingly by similarity score, with at most
`limit` entries, every entry scoring at least the threshold, and no entry whose
stored embedding is null (such candidates are excluded, not scored). -/
theorem claim_C2_rank (enc : String → Option (List ℝ)) (query : String)
    (state : Option String) (subseccd : Option ℤ) (ntee_codes : Option (List String))
    (limit : ℕ) (thr : ℝ) (db : List Organization) :
    List.Sorted (fun a b : Organization × ℝ => b.2 ≤ a.2)
      (semantic_search_organizations enc query state subseccd ntee_codes limit thr db) ∧
    (semantic_search_organizations enc query state subseccd ntee_codes limit thr db).length
      ≤ limit ∧
    ∀ p ∈ semantic_search_organizations enc query state subseccd ntee_codes limit thr db,
      thr ≤ p.2 ∧ p.1.embedding ≠ none := by
  by_cases hc : ((db.filter (semantic_filter state subseccd ntee_codes)).take 1000).isEmpty = true
  · rw [semantic_search_organizations, if_pos hc]
    exact ⟨List.sorted_nil, Nat.zero_le _, fun p hp => absurd hp (List.not_mem_nil p)⟩
  · rw [semantic_search_organizations, if_neg hc]
    refine ⟨?_, List.length_take_le _ _, ?_⟩
    · have hp := List.sorted_mergeSort scoreDescPair_trans scoreDescPair_total
        (((db.filter (semantic_filter state subseccd ntee_codes)).take 1000).filterMap
          (semantic_score (generate_embedding enc query) thr))
      have hs := hp.imp (fun h => by simpa [scoreDescPair] using h)
      exact hs.sublist (List.take_sublist _ _)
    · intro p hp
      have hmem := List.take_subset _ _ hp
      have hres := (List.mergeSort_perm _ _).mem_iff.mp hmem
      obtain ⟨o, _, hfo⟩ := List.mem_filterMap.mp hres
      obtain ⟨h1, h2, _⟩ := semantic_score_spec _ _ _ _ hfo
      exact ⟨h1, h2⟩
/-- Looking up the key just inserted yields the inserted value. -/
theorem dictFind?_insert_self {V : Type} (m : List (ℤ × V)) (k : ℤ) (v : V) :
    dictFind? (dictInsert m k v) k = some v := by
  induction m with
  | nil => simp [dictInsert, dictFind?]
  | cons a m ih =>
    by_cases h : a.1 = k
    · simp [dictInsert, dictFind?, h]
    · simp only [dictInsert]
      rw [if_neg h]
      simp only [dictFind?]
      rw [if_neg h]
      exact ih

/-- Inserting under a different key leaves a lookup unchanged. -/
theorem dictFind?_insert_ne {V : Type} (m : List (ℤ × V)) (k k' : ℤ) (v : V)
    (h : k' ≠ k) : dictFind? (dictInsert m k' v) k = dictFind? m k := by
  induction m with
  | nil => simp [dictInsert, dictFind?, h]
  | cons a m ih =>
    by_cases ha : a.1 = k'
    · simp only [dictInsert]
      rw [if_pos ha]
      simp only [dictFind?]
      rw [if_neg h, if_neg (fun hc => h (ha ▸ hc))]
    · simp only [dictInsert]
      rw [if_neg ha]
      simp only [dictFind?]
      by_cases hk : a.1 = k
      · rw [if_pos hk, if_pos hk]
      · rw [if_neg hk, if_neg hk]
        exact ih

/-- A successful lookup certifies membership. -/
theorem dictFind?_mem {V : Type} (m : List (ℤ × V)) (k : ℤ) (v : V)
    (h : dictFind? m k = some v) : (k, v) ∈ m := by
  induction m with
  | nil => cases h
  | cons a m ih =>
    rw [dictFind?] at h
    by_cases hk : a.1 = k
    · rw [if_pos hk] at h
      injection h with h2
      have hav : (k, v) = a := by rw [← hk, ← h2]
      rw [hav]
      exact List.mem_cons_self a m
    · rw [if_neg hk] at h
      exact List.mem_cons_of_mem a (ih h)

/-- Membership after an insertion: the new pair or an old one. -/
theorem dictInsert_mem {V : Type} (m : List (ℤ × V)) (k : ℤ) (v : V)
    (p : ℤ × V) (h : p ∈ dictInsert m k v) : p = (k, v) ∨ p ∈ m := by
  induction m with
  | nil => simpa [dictInsert] using h
  | cons a m ih =>
    rw [dictInsert] at h
    by_cases hk : a.1 = k
    · rw [if_pos hk] at h
      rcases List.mem_cons.mp h with h1 | h1
      · exact Or.inl h1
      · exact Or.inr (List.mem_cons_of_mem a h1)
    · rw [if_neg hk] at h
      rcases List.mem_cons.mp h with h1 | h1
      · exact Or.inr (h1 ▸ List.mem_cons_self a m)
      · rcases ih h1 with h2 | h2
        · exact Or.inl h2
        · exact Or.inr (List.mem_cons_of_mem a h2)

/-- Insertion preserves distinctness of the dict keys. -/
theorem dictInsert_keys_nodup {V : Type} (m : List (ℤ × V)) (k : ℤ) (v : V)
    (h : (m.map Prod.fst).Nodup) : ((dictInsert m k v).map Prod.fst).Nodup := by
  induction m with
  | nil => simp [dictInsert]
  | cons a m ih =>
    rw [List.map_cons, List.nodup_cons] at h
    by_cases hk : a.1 = k
    · rw [dictInsert, if_pos hk, List.map_cons, List.nodup_cons]
      exact ⟨hk ▸ h.1, h.2⟩
    · rw [dictInsert, if_neg hk, List.map_cons, List.nodup_cons]
      refine ⟨?_, ih h.2⟩
      intro hmem
      obtain ⟨q, hq, hq1⟩ := List.mem_map.mp hmem
      rcases dictInsert_mem m k v q hq with h2 | h2
      · exact hk (by rw [h2] at hq1; exact hq1.symm ▸ rfl)
      · exact h.1 (hq1 ▸ List.mem_map_of_mem Prod.fst h2)
/-- The semantic loop does not alter lookups at keys it never inserts. -/
theorem semFold_find_of_ne (l : List (Organization × ℝ))
    (m : List (ℤ × (Organization × ℝ × String))) (k : ℤ)
    (h : ∀ p ∈ l, p.1.ein ≠ k) :
    dictFind? (l.foldl semantic_entry_step m) k = dictFind? m k := by
  induction l generalizing m with
  | nil => rfl
  | cons a l ih =>
    rw [List.foldl_cons, ih _ (fun p hp => h p (List.mem_cons_of_mem a hp)),
      semantic_entry_step, dictFind?_insert_ne _ _ _ _ (h a (List.mem_cons_self a l))]

/-- With distinct `ein`s, the semantic loop stores each ranked candidate with
its score weighted by 0.8 under tag `"semantic"`. -/
theorem semFold_find_mem (l : List (Organization × ℝ))
    (m : List (ℤ × (Organization × ℝ × String))) (org : Organization) (s : ℝ)
    (hn : (l.map (fun p => p.1.ein)).Nodup) (hm : (org, s) ∈ l) :
    dictFind? (l.foldl semantic_entry_step m) org.ein = some (org, s * 0.8, "semantic") := by
  induction l generalizing m with
  | nil => cases hm
  | cons a l ih =>
    rw [List.map_cons, List.nodup_cons] at hn
    rw [List.foldl_cons]
    rcases List.mem_cons.mp hm with heq | hm'
    · rw [← heq]
      rw [semFold_find_of_ne l _ _ ?hne]
      · rw [semantic_entry_step, dictFind?_insert_self]
      case hne =>
        intro p hp hpe
        rw [← heq] at hn
        exact hn.1 (hpe ▸ List.mem_map_of_mem (fun p => p.1.ein) hp)
    · exact ih _ hn.2 hm'

/-- A keyword step does not alter lookups at other keys. -/
theorem keyword_entry_step_find_ne (m : List (ℤ × (Organization × ℝ × String)))
    (o : Organization) (k : ℤ) (h : o.ein ≠ k) :
    dictFind? (keyword_entry_step m o) k = dictFind? m k := by
  rw [keyword_entry_step]
  cases hf : dictFind? m o.ein with
  | none => exact dictFind?_insert_ne _ _ _ _ h
  | some v =>
    obtain ⟨eo, es, tag⟩ := v
    exact dictFind?_insert_ne _ _ _ _ h

/-- The keyword loop does not alter lookups at keys of no keyword candidate. -/
theorem kwFold_find_of_ne (l : List Organization)
    (m : List (ℤ × (Organization × ℝ × String))) (k : ℤ)
    (h : ∀ o ∈ l, o.ein ≠ k) :
    dictFind? (l.foldl keyword_entry_step m) k = dictFind? m k := by
  induction l generalizing m with
  | nil => rfl
  | cons a l ih =>
    rw [List.foldl_cons, ih _ (fun o ho => h o (List.mem_cons_of_mem a ho)),
      keyword_entry_step_find_ne _ _ _ (h a (List.mem_cons_self a l))]

/-- With distinct `ein`s, a keyword candidate whose key is already present
boosts the stored entry by 0.3 and upgrades its tag to `"hybrid"`. -/
theorem kwFold_find_existing (l : List Organization)
    (m : List (ℤ × (Organization × ℝ × String))) (o : Organization)
    (hn : (l.map Organization.ein).Nodup) (hm : o ∈ l)
    (eo : Organization) (es : ℝ) (tag : String)
    (hf : dictFind? m o.ein = some (eo, es, tag)) :
    dictFind? (l.foldl keyword_entry_step m) o.ein = some (eo, es + 0.3, "hybrid") := by
  induction l generalizing m with
  | nil => cases hm
  | cons a l ih =>
    rw [List.map_cons, List.nodup_cons] at hn
    rw [List.foldl_cons]
    rcases List.mem_cons.mp hm with heq | hm'
    · rw [← heq] at hn ⊢
      rw [kwFold_find_of_ne l _ _ (by
        intro p hp hpe
        apply hn.1
        rw [← hpe]
        exact List.mem_map_of_mem Organization.ein hp)]
      rw [keyword_entry_step, hf, dictFind?_insert_self]
    · have hne : a.ein ≠ o.ein := by
        intro hEq
        exact hn.1 (hEq ▸ List.mem_map_of_mem Organization.ein hm')
      exact ih _ hn.2 hm' (by rw [keyword_entry_step_find_ne _ _ _ hne]; exact hf)

/-- With distinct `ein`s, a keyword candidate whose key is absent is stored
with fixed score 0.5 under tag `"keyword"`. -/
theorem kwFold_find_new (l : List Organization)
    (m : List (ℤ × (Organization × ℝ × String))) (o : Organization)
    (hn : (l.map Organization.ein).Nodup) (hm : o ∈ l)
    (hf : dictFind? m o.ein = none) :
    dictFind? (l.foldl keyword_entry_step m) o.ein = some (o, 0.5, "keyword") := by
  induction l generalizing m with
  | nil => cases hm
  | cons a l ih =>
    rw [List.map_cons, List.nodup_cons] at hn
    rw [List.foldl_cons]
    rcases List.mem_cons.mp hm with heq | hm'
    · rw [← heq] at hn ⊢
      rw [kwFold_find_of_ne l _ _ (by
        intro p hp hpe
        apply hn.1
        rw [← hpe]
        exact List.mem_map_of_mem Organization.ein hp)]
      rw [keyword_entry_step, hf, dictFind?_insert_self]
    · have hne : a.ein ≠ o.ein := by
        intro hEq
        exact hn.1 (hEq ▸ List.mem_map_of_mem Organization.ein hm')
      exact ih _ hn.2 hm' (by rw [keyword_entry_step_find_ne _ _ _ hne]; exact hf)
/-- Claim C1: with each input ranking carrying distinct organization
identifiers, the fused dict of hybrid search stores: a candidate ranked
semantically with raw score `s` and also keyword-matched with value
`(candidate, s*0.8 + 0.3, "hybrid")`; a semantic-only candidate with
`(candidate, s*0.8, "semantic")`; a keyword-only candidate with
`(candidate, 0.5, "keyword")`. -/
theorem claim_C1_fusion (sem : List (Organization × ℝ)) (kw : List Organization)
    (org : Organization) (s : ℝ)
    (hsn : (sem.map (fun p => p.1.ein)).Nodup) (hkn : (kw.map Organization.ein).Nodup) :
    ((org, s) ∈ sem → org.ein ∈ kw.map Organization.ein →
      dictFind? (combine_results sem kw) org.ein = some (org, s * 0.8 + 0.3, "hybrid")) ∧
    ((org, s) ∈ sem → org.ein ∉ kw.map Organization.ein →
      dictFind? (combine_results sem kw) org.ein = some (org, s * 0.8, "semantic")) ∧
    (org ∈ kw → org.ein ∉ sem.map (fun p => p.1.ein) →
      dictFind? (combine_results sem kw) org.ein = some (org, 0.5, "keyword")) := by
  refine ⟨?_, ?_, ?_⟩
  · intro h1 h2
    obtain ⟨o2, ho2, heq⟩ := List.mem_map.mp h2
    have hstep1 : dictFind? (sem.foldl semantic_entry_step []) org.ein =
        some (org, s * 0.8, "semantic") := semFold_find_mem sem [] org s hsn h1
    rw [combine_results, ← heq]
    exact kwFold_find_existing kw _ o2 hkn ho2 org (s * 0.8) "semantic"
      (by rw [heq]; exact hstep1)
  · intro h1 h2
    have hstep1 : dictFind? (sem.foldl semantic_entry_step []) org.ein =
        some (org, s * 0.8, "semantic") := semFold_find_mem sem [] org s hsn h1
    rw [combine_results, kwFold_find_of_ne kw _ _ (by
      intro o ho hoe
      apply h2
      rw [← hoe]
      exact List.mem_map_of_mem Organization.ein ho)]
    exact hstep1
  · intro h1 h2
    have hstep1 : dictFind? (sem.foldl semantic_entry_step []) org.ein = none := by
      rw [semFold_find_of_ne sem [] org.ein (by
        intro p hp hpe
        apply h2
        rw [← hpe]
        exact List.mem_map_of_mem (fun p => p.1.ein) hp)]
      rfl
    rw [combine_results]
    exact kwFold_find_new kw _ org hkn h1 hstep1

/-- Witness for C1: `orgAlpha` is ranked semantically with raw score 0.5 and
keyword-matched as the distinct instance `orgAlpha2` with the same `ein`, so
its fused entry is hybrid; `orgBeta` is keyword-only; with the keyword list
`[orgBeta]` alone, `orgAlpha` stays semantic-only. -/
theorem claim_C1_fusion_w :
    dictFind? (combine_results [(orgAlpha, (0.5:ℝ))] [orgAlpha2, orgBeta]) orgAlpha.ein =
      some (orgAlpha, 0.5 * 0.8 + 0.3, "hybrid") ∧
    dictFind? (combine_results [(orgAlpha, (0.5:ℝ))] [orgBeta]) orgAlpha.ein =
      some (orgAlpha, 0.5 * 0.8, "semantic") ∧
    dictFind? (combine_results [(orgAlpha, (0.5:ℝ))] [orgAlpha2, orgBeta]) orgBeta.ein =
      some (orgBeta, 0.5, "keyword") :=
  ⟨(claim_C1_fusion [(orgAlpha, 0.5)] [orgAlpha2, orgBeta] orgAlpha 0.5
      (by simp) (by simp [orgAlpha2, orgBeta])).1
      (List.mem_singleton.mpr rfl) (by simp [orgAlpha, orgAlpha2]),
   (claim_C1_fusion [(orgAlpha, 0.5)] [orgBeta] orgAlpha 0.5
      (by simp) (by simp)).2.1
      (List.mem_singleton.mpr rfl) (by simp [orgAlpha, orgBeta]),
   (claim_C1_fusion [(orgAlpha, 0.5)] [orgAlpha2, orgBeta] orgBeta 0.5
      (by simp) (by simp [orgAlpha2, orgBeta])).2.2
      (by simp) (by simp [orgAlpha, orgBeta])⟩
/-- Every entry of the fused dict stores an organization whose `ein` equals its
key. -/
theorem combine_results_key_inv (sem : List (Organization × ℝ)) (kw : List Organization) :
    ∀ q ∈ combine_results sem kw, q.2.1.ein = q.1 := by
  rw [combine_results]
  have hsem : ∀ m, (∀ q ∈ m, q.2.1.ein = q.1) →
      ∀ q ∈ sem.foldl semantic_entry_step m, q.2.1.ein = q.1 := by
    induction sem with
    | nil => exact fun m hm => hm
    | cons a l ih =>
      intro m hm q
      rw [List.foldl_cons]
      refine ih _ (fun q' hq' => ?_) q
      rcases dictInsert_mem _ _ _ q' hq' with h1 | h1
      · rw [h1]
      · exact hm q' h1
  have hkw : ∀ (l : List Organization) m, (∀ q ∈ m, q.2.1.ein = q.1) →
      ∀ q ∈ l.foldl keyword_entry_step m, q.2.1.ein = q.1 := by
    intro l
    induction l with
    | nil => exact fun m hm => hm
    | cons a l ih =>
      intro m hm q hq
      rw [List.foldl_cons] at hq
      refine ih _ (fun q' hq' => ?_) q hq
      rw [keyword_entry_step] at hq'
      cases hf : dictFind? m a.ein with
      | none =>
        rw [hf] at hq'
        rcases dictInsert_mem _ _ _ q' hq' with h1 | h1
        · rw [h1]
        · exact hm q' h1
      | some v =>
        obtain ⟨eo, es, tag⟩ := v
        rw [hf] at hq'
        rcases dictInsert_mem _ _ _ q' hq' with h1 | h1
        · rw [h1]
          exact hm (a.ein, (eo, es, tag)) (dictFind?_mem _ _ _ hf)
        · exact hm q' h1
  exact hkw kw _ (hsem [] (fun q hq => absurd hq (List.not_mem_nil q)))

/-- The fused dict has pairwise-distinct keys. -/
theorem combine_results_keys_nodup (sem : List (Organization × ℝ)) (kw : List Organization) :
    ((combine_results sem kw).map Prod.fst).Nodup := by
  rw [combine_results]
  have hsem : ∀ m, (m.map Prod.fst).Nodup →
      ((sem.foldl semantic_entry_step m).map Prod.fst).Nodup := by
    induction sem with
    | nil => exact fun m hm => hm
    | cons a l ih =>
      intro m hm
      rw [List.foldl_cons]
      exact ih _ (dictInsert_keys_nodup _ _ _ hm)
  have hkw : ∀ (l : List Organization) m, (m.map Prod.fst).Nodup →
      ((l.foldl keyword_entry_step m).map Prod.fst).Nodup := by
    intro l
    induction l with
    | nil => exact fun m hm => hm
    | cons a l ih =>
      intro m hm
      rw [List.foldl_cons]
      refine ih _ ?_
      rw [keyword_entry_step]
      cases hf : dictFind? m a.ein with
      | none => exact dictInsert_keys_nodup _ _ _ hm
      | some v =>
        obtain ⟨eo, es, tag⟩ := v
        exact dictInsert_keys_nodup _ _ _ hm
  exact hkw kw _ (hsem [] List.nodup_nil)

/-- Claim C9: for every pair of input rankings and every limit, the hybrid
fusion output contains at most one entry per organization identifier — all
entries of `hybrid_fuse` have pairwise-distinct `ein`s, even when the same
`ein` occurs in both inputs as distinct instances. -/
theorem claim_C9_dedup (sem : List (Organization × ℝ)) (kw : List Organization) (limit : ℕ) :
    List.Pairwise (fun a b : Organization × ℝ × String => a.1.ein ≠ b.1.ein)
      (hybrid_fuse sem kw limit) := by
  have hkeys := combine_results_keys_nodup sem kw
  have hinv := combine_results_key_inv sem kw
  have hpair : List.Pairwise (fun q q' : ℤ × (Organization × ℝ × String) => q.1 ≠ q'.1)
      (combine_results sem kw) := List.pairwise_map.mp hkeys
  have hpair2 : List.Pairwise
      (fun q q' : ℤ × (Organization × ℝ × String) => q.2.1.ein ≠ q'.2.1.ein)
      (combine_results sem kw) :=
    hpair.imp_of_mem (fun hq hq' h => by rw [hinv _ hq, hinv _ hq']; exact h)
  have hmap : List.Pairwise (fun a b : Organization × ℝ × String => a.1.ein ≠ b.1.ein)
      ((combine_results sem kw).map (fun p => p.2)) := List.pairwise_map.mpr hpair2
  have hsort : List.Pairwise (fun a b : Organization × ℝ × String => a.1.ein ≠ b.1.ein)
      (((combine_results sem kw).map (fun p => p.2)).mergeSort scoreDescTriple) :=
    ((List.mergeSort_perm _ scoreDescTriple).pairwise_iff (fun h => h.symm)).mpr hmap
  rw [hybrid_fuse]
  exact hsort.sublist (List.take_sublist _ _)
/-- Overwriting a row with one agreeing on all identity fields leaves the
identity-field projection of the table unchanged. -/
theorem map_idFields_set (db : List Organization) (i : ℕ) (o o' : Organization)
    (hgo : db[i]? = some o) (hid : idFields o' = idFields o) :
    (db.set i o').map idFields = db.map idFields := by
  apply List.ext_getElem?
  intro n
  rw [List.getElem?_map, List.getElem?_map]
  by_cases hni : n = i
  · subst hni
    rw [List.getElem?_set_self (List.getElem?_eq_some.mp hgo).1, hgo]
    show some (idFields o') = some (idFields o)
    rw [hid]
  · rw [List.getElem?_set_ne (fun h => hni h.symm)]

/-- `update_organization_embedding` writes only the two derived columns: the
identity fields of every row are unchanged. -/
theorem update_embedding_frame (enc : String → Option (List ℝ))
    (db : List Organization) (ein : ℤ) :
    ((update_organization_embedding enc db ein).1).map idFields = db.map idFields := by
  rw [update_organization_embedding]
  cases h1 : db.findIdx? (fun o => o.ein = ein) with
  | none => rfl
  | some i =>
    dsimp only
    cases h2 : db[i]? with
    | none => rfl
    | some org => exact map_idFields_set db i org _ h2 rfl

/-- The write-back fold of `batch_update_embeddings` preserves the
identity-field projection, provided every triple carries the row stored at its
index. -/
theorem batch_fold_frame (l : List ((ℕ × Organization) × String × List ℝ))
    (db : List Organization) (d : List Organization)
    (hl : ∀ t ∈ l, db[t.1.1]? = some t.1.2) (hd : d.map idFields = db.map idFields) :
    (l.foldl
      (fun d t =>
        d.set t.1.1 { t.1.2 with searchable_text := some t.2.1, embedding := some t.2.2 })
      d).map idFields = db.map idFields := by
  induction l generalizing d with
  | nil => exact hd
  | cons a l ih =>
    rw [List.foldl_cons]
    refine ih _ (fun t ht => hl t (List.mem_cons_of_mem a ht)) ?_
    have hdb := hl a (List.mem_cons_self a l)
    have hmap : (d.map idFields)[a.1.1]? = some (idFields a.1.2) := by
      rw [hd, List.getElem?_map, hdb]
      rfl
    rw [List.getElem?_map] at hmap
    cases hde : d[a.1.1]? with
    | none => rw [hde] at hmap; cases hmap
    | some o =>
      rw [hde] at hmap
      have hido : idFields o = idFields a.1.2 := by
        injection hmap
      rw [map_idFields_set d a.1.1 o _ hde (by rw [hido]; rfl), hd]
/-- `batch_update_embeddings` writes only the two derived columns: the
identity fields of every row are unchanged. -/
theorem batch_update_frame (encB : List String → Option (List (List ℝ)))
    (db : List Organization) (batch_size : ℕ) :
    ((batch_update_embeddings encB db batch_size).1).map idFields = db.map idFields := by
  rw [batch_update_embeddings]
  split
  · rfl
  · refine batch_fold_frame _ db db (fun t ht => ?_) rfl
    have ht1 := (List.of_mem_zip ht).1
    have ht2 : t.1 ∈ db.enum :=
      (List.filter_sublist db.enum).subset (List.take_subset _ _ ht1)
    exact List.mem_enum_iff_getElem?.mp ht2

/-- Keyword search returns only rows of the table. -/
theorem search_organizations_mem_db (query state : Option String) (subseccd : Option ℤ)
    (limit : ℕ) (db : List Organization) (o : Organization)
    (h : o ∈ search_organizations query state subseccd limit db) : o ∈ db :=
  (List.filter_sublist db).subset (List.take_subset _ _ h)

/-- Semantic search returns only rows of the table. -/
theorem semantic_search_mem_db (enc : String → Option (List ℝ)) (query : String)
    (state : Option String) (subseccd : Option ℤ) (ntee_codes : Option (List String))
    (limit : ℕ) (thr : ℝ) (db : List Organization) (p : Organization × ℝ)
    (h : p ∈ semantic_search_organizations enc query state subseccd ntee_codes limit thr db) :
    p.1 ∈ db := by
  rw [semantic_search_organizations] at h
  split at h
  · cases h
  · obtain ⟨o, ho, hfo⟩ := List.mem_filterMap.mp
      ((List.mergeSort_perm _ _).mem_iff.mp (List.take_subset _ _ h))
    obtain ⟨-, -, hpo⟩ := semantic_score_spec _ _ _ _ hfo
    rw [hpo]
    exact (List.filter_sublist db).subset (List.take_subset _ _ ho)

/-- Every fused dict entry stores an organization instance taken from one of
the two input rankings. -/
theorem combine_results_org_mem (sem : List (Organization × ℝ)) (kw : List Organization) :
    ∀ q ∈ combine_results sem kw, q.2.1 ∈ sem.map Prod.fst ∨ q.2.1 ∈ kw := by
  rw [combine_results]
  have hsem : ∀ (l : List (Organization × ℝ)), (∀ p ∈ l, p.1 ∈ sem.map Prod.fst) →
      ∀ m, (∀ q ∈ m, q.2.1 ∈ sem.map Prod.fst ∨ q.2.1 ∈ kw) →
      ∀ q ∈ l.foldl semantic_entry_step m, q.2.1 ∈ sem.map Prod.fst ∨ q.2.1 ∈ kw := by
    intro l
    induction l with
    | nil => exact fun _ m hm => hm
    | cons a l ih =>
      intro hl m hm q hq
      rw [List.foldl_cons] at hq
      refine ih (fun p hp => hl p (List.mem_cons_of_mem a hp)) _ (fun q' hq' => ?_) q hq
      rw [semantic_entry_step] at hq'
      rcases dictInsert_mem _ _ _ q' hq' with h1 | h1
      · rw [h1]
        exact Or.inl (hl a (List.mem_cons_self a l))
      · exact hm q' h1
  have hkw : ∀ (l : List Organization), (∀ o ∈ l, o ∈ kw) →
      ∀ m, (∀ q ∈ m, q.2.1 ∈ sem.map Prod.fst ∨ q.2.1 ∈ kw) →
      ∀ q ∈ l.foldl keyword_entry_step m, q.2.1 ∈ sem.map Prod.fst ∨ q.2.1 ∈ kw := by
    intro l
    induction l with
    | nil => exact fun _ m hm => hm
    | cons a l ih =>
      intro hl m hm q hq
      rw [List.foldl_cons] at hq
      refine ih (fun o ho => hl o (List.mem_cons_of_mem a ho)) _ (fun q' hq' => ?_) q hq
      rw [keyword_entry_step] at hq'
      cases hf : dictFind? m a.ein with
      | none =>
        rw [hf] at hq'
        rcases dictInsert_mem _ _ _ q' hq' with h1 | h1
        · rw [h1]
          exact Or.inr (hl a (List.mem_cons_self a l))
        · exact hm q' h1
      | some v =>
        obtain ⟨eo, es, tag⟩ := v
        rw [hf] at hq'
        rcases dictInsert_mem _ _ _ q' hq' with h1 | h1
        · rw [h1]
          exact hm (a.ein, (eo, es, tag)) (dictFind?_mem _ _ _ hf)
        · exact hm q' h1
  exact hkw kw (fun o ho => ho) _
    (hsem sem (fun p hp => List.mem_map_of_mem Prod.fst hp) []
      (fun q hq => absurd hq (List.not_mem_nil q)))

/-- Hybrid search returns only rows of the table. -/
theorem hybrid_search_mem_db (enc : String → Option (List ℝ))
    (extract : String → QueryComponents) (query : String) (state : Option String)
    (subseccd : Option ℤ) (limit : ℕ) (db : List Organization)
    (e : Organization × ℝ × String)
    (h : e ∈ hybrid_search_organizations enc extract query state subseccd limit db) :
    e.1 ∈ db := by
  rw [hybrid_search_organizations, hybrid_fuse] at h
  obtain ⟨q, hq, hqe⟩ := List.mem_map.mp
    ((List.mergeSort_perm _ _).mem_iff.mp (List.take_subset _ _ h))
  rcases combine_results_org_mem _ _ q hq with h1 | h1
  · obtain ⟨p, hp, hpe⟩ := List.mem_map.mp h1
    have := semantic_search_mem_db enc query _ subseccd none limit 0.1 db p hp
    rw [← hqe, ← hpe]
    exact this
  · have := search_organizations_mem_db (some query) _ subseccd limit db q.2.1 h1
    rw [← hqe]
    exact this
/-- Claim C7: no search operation (semantic, keyword or hybrid) mutates stored
rows — each returns organization instances taken unchanged from the table —
and the two embedding-refresh operations write only `searchable_text` and
`embedding`, leaving the identity-field projection of every row unchanged. -/
theorem claim_C7_frame :
    (∀ (query state : Option String) (subseccd : Option ℤ) (limit : ℕ)
        (db : List Organization),
      ∀ o ∈ search_organizations query state subseccd limit db, o ∈ db) ∧
    (∀ (enc : String → Option (List ℝ)) (query : String) (state : Option String)
        (subseccd : Option ℤ) (ntee_codes : Option (List String)) (limit : ℕ) (thr : ℝ)
        (db : List Organization),
      ∀ p ∈ semantic_search_organizations enc query state subseccd ntee_codes limit thr db,
        p.1 ∈ db) ∧
    (∀ (enc : String → Option (List ℝ)) (extract : String → QueryComponents)
        (query : String) (state : Option String) (subseccd : Option ℤ) (limit : ℕ)
        (db : List Organization),
      ∀ e ∈ hybrid_search_organizations enc extract query state subseccd limit db,
        e.1 ∈ db) ∧
    (∀ (enc : String → Option (List ℝ)) (db : List Organization) (ein : ℤ),
      ((update_organization_embedding enc db ein).1).map idFields = db.map idFields) ∧
    (∀ (encB : List String → Option (List (List ℝ))) (db : List Organization)
        (batch_size : ℕ),
      ((batch_update_embeddings encB db batch_size).1).map idFields = db.map idFields) :=
  ⟨fun query state subseccd limit db o h =>
      search_organizations_mem_db query state subseccd limit db o h,
   fun enc query state subseccd ntee limit thr db p h =>
      semantic_search_mem_db enc query state subseccd ntee limit thr db p h,
   fun enc extract query state subseccd limit db e h =>
      hybrid_search_mem_db enc extract query state subseccd limit db e h,
   fun enc db ein => update_embedding_frame enc db ein,
   fun encB db bs => batch_update_frame encB db bs⟩

/-- Witness for C7: a keyword search over a one-row table returns that row, a
hybrid search over the same table returns only stored rows, and refreshing the
row's embedding leaves its identity fields untouched. -/
theorem claim_C7_frame_w :
    orgCA ∈ [orgCA] ∧
    ((update_organization_embedding (fun _ => none) [orgCA] 1).1).map idFields =
      [orgCA].map idFields ∧
    ((batch_update_embeddings (fun _ => none) [orgCA] 50).1).map idFields =
      [orgCA].map idFields :=
  ⟨claim_C7_frame.1 (some "x") none none 50 [orgCA] orgCA (by
      simp [search_organizations, truthyStr, truthyInt, orgCA, pyLower]),
   claim_C7_frame.2.2.2.1 (fun _ => none) [orgCA] 1,
   claim_C7_frame.2.2.2.2 (fun _ => none) [orgCA] 50⟩
/-- `hybrid_search_organizations`, unfolded: both sub-searches receive the
Python-`or` of the explicit state filter and the first extracted geographic
match, and their results are fused. -/
theorem hybrid_state_eq (enc : String → Option (List ℝ))
    (extract : String → QueryComponents) (query : String) (state : Option String)
    (subseccd : Option ℤ) (limit : ℕ) (db : List Organization) :
    hybrid_search_organizations enc extract query state subseccd limit db =
      hybrid_fuse
        (semantic_search_organizations enc query
          (if truthyStr state = true then state else (extract query).geographic.head?)
          subseccd none limit 0.1 db)
        (search_organizations (some query)
          (if truthyStr state = true then state else (extract query).geographic.head?)
          subseccd limit db) limit := rfl

/-- Counterexample to claim C8: with an explicitly passed empty-string state
filter and a query whose first geographic match is `"CA"`, hybrid search on a
New York row returns nothing — the derived `"CA"` overrode the passed filter —
whereas fusing the sub-searches with the passed filter unchanged returns the
New York row (an empty-string filter matches every state). -/
theorem claim_C8_cex :
    hybrid_search_organizations (fun _ => none) extractCA "x" (some "") none 20 [orgNY] = [] ∧
    hybrid_fuse
      (semantic_search_organizations (fun _ => none) "x" (some "") none none 20 0.1 [orgNY])
      (search_organizations (some "x") (some "") none 20 [orgNY]) 20 =
      [(orgNY, 0.5, "keyword")] ∧
    ([(orgNY, (0.5:ℝ), "keyword")] : List (Organization × ℝ × String)) ≠ [] := by
  refine ⟨?_, ?_, List.cons_ne_nil _ _⟩
  · rw [hybrid_state_eq]
    have hst : (if truthyStr (some "") = true then some ""
        else (extractCA "x").geographic.head?) = some "CA" := rfl
    rw [hst]
    have h2 : semantic_search_organizations (fun _ => none) "x" (some "CA") none none
        20 0.1 [orgNY] = [] := rfl
    have h3 : search_organizations (some "x") (some "CA") none 20 [orgNY] = [] := rfl
    rw [h2, h3, hybrid_fuse]
    have h4 : (combine_results ([] : List (Organization × ℝ))
        ([] : List Organization)).map (fun p => p.2) = [] := rfl
    rw [h4, List.mergeSort_nil]
    rfl
  · have h5 : semantic_search_organizations (fun _ => none) "x" (some "") none none
        20 0.1 [orgNY] = [] := rfl
    have h6 : search_organizations (some "x") (some "") none 20 [orgNY] = [orgNY] := rfl
    rw [h5, h6, hybrid_fuse]
    have h7 : (combine_results ([] : List (Organization × ℝ)) [orgNY]).map (fun p => p.2) =
        [(orgNY, (0.5:ℝ), "keyword")] := rfl
    rw [h7, List.mergeSort_singleton]
    rfl

/-- Claim C8 (amended): in hybrid mode both sub-searches receive the same
state filter; a Python-truthy (non-empty) explicit filter is used unchanged,
while an absent — or explicitly empty-string, which Python `or` treats as
absent — filter is replaced by the first geographic match extracted from the
query. -/
theorem claim_C8_state_default (enc : String → Option (List ℝ))
    (extract : String → QueryComponents) (query : String) (state : Option String)
    (subseccd : Option ℤ) (limit : ℕ) (db : List Organization) :
    (truthyStr state = true →
      hybrid_search_organizations enc extract query state subseccd limit db =
        hybrid_fuse
          (semantic_search_organizations enc query state subseccd none limit 0.1 db)
          (search_organizations (some query) state subseccd limit db) limit) ∧
    (truthyStr state = false →
      hybrid_search_organizations enc extract query state subseccd limit db =
        hybrid_fuse
          (semantic_search_organizations enc query ((extract query).geographic.head?)
            subseccd none limit 0.1 db)
          (search_organizations (some query) ((extract query).geographic.head?)
            subseccd limit db) limit) := by
  constructor
  · intro h
    rw [hybrid_state_eq, if_pos h]
  · intro h
    rw [hybrid_state_eq, if_neg (by rw [h]; exact Bool.false_ne_true)]

/-- Witness for the amended C8: a non-empty explicit filter is used unchanged;
an absent filter is replaced by the extracted geographic match. -/
theorem claim_C8_state_default_w :
    (hybrid_search_organizations (fun _ => none) extractCA "x" (some "NY") none 3 [] =
      hybrid_fuse
        (semantic_search_organizations (fun _ => none) "x" (some "NY") none none 3 0.1 [])
        (search_organizations (some "x") (some "NY") none 3 []) 3) ∧
    (hybrid_search_organizations (fun _ => none) extractCA "x" none none 3 [] =
      hybrid_fuse
        (semantic_search_organizations (fun _ => none) "x" ((extractCA "x").geographic.head?)
          none none 3 0.1 [])
        (search_organizations (some "x") ((extractCA "x").geographic.head?) none 3 []) 3) :=
  ⟨(claim_C8_state_default (fun _ => none) extractCA "x" (some "NY") none 3 []).1 (by decide),
   (claim_C8_state_default (fun _ => none) extractCA "x" none none 3 []).2 rfl⟩
/-- Counterexample to claim C6: a batch of 3 embedding-less organizations of
which exactly one (`orgU2`, all fields null) has unparseable/empty source text
yields `{updated: 3, errors: 0}`, not `{updated: 2, errors: 1}` — the
unparseable item degrades to a zero-vector embedding and is still counted as
updated. -/
theorem claim_C6_cex :
    (batch_update_embeddings encPerText [orgU1, orgU2, orgU3] 50).2 =
      (⟨3, 0⟩ : UpdateStats) ∧
    (⟨3, 0⟩ : UpdateStats) ≠ (⟨2, 1⟩ : UpdateStats) := by
  exact ⟨rfl, by decide⟩

/-- Claim C6 (amended): `batch_update_embeddings` reports per-item counts and
never raises: every selected embedding-less row (up to `batch_size`, here the
first `batch_size` such rows) is counted as updated and the error counter is
0 — an item with unparseable (empty) source text still counts as updated via
its zero-vector embedding. -/
theorem claim_C6_stats (encB : List String → Option (List (List ℝ)))
    (db : List Organization) (batch_size : ℕ) :
    (batch_update_embeddings encB db batch_size).2 =
      ⟨((db.enum.filter (fun p => p.2.embedding.isNone)).take batch_size).length, 0⟩ := by
  rw [batch_update_embeddings]
  split
  · rename_i h
    rw [List.isEmpty_iff] at h
    rw [h]
    rfl
  · show (⟨_, 0⟩ : UpdateStats) = _
    have hlen : (((db.enum.filter (fun p => p.2.embedding.isNone)).take batch_size).zip
        ((((db.enum.filter (fun p => p.2.embedding.isNone)).take batch_size).map
          (fun p => build_searchable_text (orgFieldsOf p.2))).zip
          (generate_embeddings_batch encB
            (((db.enum.filter (fun p => p.2.embedding.isNone)).take batch_size).map
              (fun p => build_searchable_text (orgFieldsOf p.2)))))).length =
        ((db.enum.filter (fun p => p.2.embedding.isNone)).take batch_size).length := by
      rw [List.length_zip, List.length_zip, List.length_map,
        generate_embeddings_batch_length, List.length_map]
      simp [min_self]
    rw [hlen]
/-- Witness for C2 at a one-row table: the returned entry meets the threshold
and has a non-null stored embedding. -/
theorem claim_C2_rank_w :
    (0:ℝ) ≤ ((orgEmb, (0:ℝ)) : Organization × ℝ).2 ∧
    ((orgEmb, (0:ℝ)) : Organization × ℝ).1.embedding ≠ none :=
  (claim_C2_rank (fun _ => none) "q" none none none 5 0 [orgEmb]).2.2 (orgEmb, 0) (by
    have hqe : generate_embedding (fun _ => none) "q" = zeroVec := by
      rw [generate_embedding, if_neg (show ¬(pyStrip "q" = "") from by decide)]
    have hlen : zeroVec.length = 384 := by rw [zeroVec, List.length_replicate]; rfl
    have hsim : compute_similarity zeroVec [1] = 0 := by
      rw [compute_similarity, if_pos (show zeroVec.length ≠ ([(1:ℝ)]).length by rw [hlen]; simp)]
    simp [semantic_search_organizations, hqe, semantic_filter, semantic_score, orgEmb,
      truthyStr, truthyInt, hsim])
